import Mathlib

/-!
# Verification of iTwinUI-react Tree and ComboBox behavior

Shallow embedding of the `Tree`, `TreeNode` and `ComboBox` components of the
iTwinUI-react component library (files `src/core/Tree/Tree.tsx`,
`src/core/Tree/TreeNode.tsx`, `src/core/ComboBox/ComboBox.tsx`), together with
proofs about their keyboard navigation, filtering, rendering and state update
logic.
-/

namespace ITwinUI

/-! ## JavaScript array helpers -/

/-- JavaScript `Array.prototype.findIndex`: index of the first element
satisfying `p`, or `-1` when there is none. -/
def jsFindIndex (p : α → Bool) : List α → Int
  | [] => -1
  | a :: as =>
    if p a then 0
    else
      let r := jsFindIndex p as
      if r = -1 then -1 else r + 1

/-! ## Tree: DOM node model and `handleKeyDown`

`Tree.handleKeyDown` queries the rendered DOM with
`querySelectorAll('.iui-tree-node:not(.iui-disabled)')`, which yields the
tree-node elements that do not carry the `iui-disabled` class, in document
order.  We model the full document-order list of rendered tree nodes as a
`List TreeDomNode`; the query result is then the sublist of nodes whose
`isDisabled` flag is off.  Each `TreeDomNode` carries the information the
handler can observe about a node's DOM neighborhood:

* `id`          — the `id` of the enclosing `li` (set to `nodeId` by `TreeNode`);
* `isDisabled`  — whether the `.iui-tree-node` div has class `iui-disabled`;
* `hasExpander` — whether `querySelector('.iui-tree-node-content-expander-icon')`
  finds an icon (`TreeNode` renders one exactly when `hasSubNodes` is set);
* `isExpanded`  — whether that icon has the
  `iui-tree-node-content-expander-icon-expanded` class;
* `subNodeIds`  — the parsed `aria-owns` id list of the node's `.iui-sub-tree`
  sublist (empty when the node renders no sublist).
-/

structure TreeDomNode where
  id : String
  isDisabled : Bool
  hasExpander : Bool
  isExpanded : Bool
  subNodeIds : List String
  deriving Repr, DecidableEq

/-- Observable effect of one run of `Tree.handleKeyDown`. -/
inductive TreeAction where
  /-- `nodes[newIndex].focus()` followed by `event.preventDefault()`. -/
  | focusNode (id : String)
  /-- `nodes[currentIndex].click()` (Enter / Space / Spacebar). -/
  | clickNode (id : String)
  /-- `expander.parentElement?.click()` (ArrowLeft on an expanded node or
  ArrowRight on a collapsed node that has an expander). -/
  | clickExpander (id : String)
  /-- The handler returned without focusing or clicking anything. -/
  | noop
  deriving Repr, DecidableEq

/-- The keyboard keys distinguished by `Tree.handleKeyDown`'s `switch`
(`'Enter'`, `' '` and `'Spacebar'` share one branch; every other key falls
through with `newIndex` still `-1`). -/
inductive TreeKey where
  | arrowDown
  | arrowUp
  | arrowLeft
  | arrowRight
  | enterOrSpace
  | other
  deriving Repr, DecidableEq

/-- The enabled (non-`iui-disabled`) tree nodes, in document order: the result
of `querySelectorAll('.iui-tree-node:not(.iui-disabled)')`. -/
def enabledNodes (nodes : List TreeDomNode) : List TreeDomNode :=
  nodes.filter (fun n => !n.isDisabled)

/-- `nodes[i]` for an in-range JavaScript index (the default is never reached
in the places we use it; it stands for the `undefined` of an out-of-range
access). -/
def nodeAt (ns : List TreeDomNode) (i : Nat) : TreeDomNode :=
  ns.getD i ⟨"", false, false, false, []⟩

/-- The final `if (newIndex >= 0 && newIndex < nodes.length)` block of
`handleKeyDown`: focus `nodes[newIndex]` when `newIndex` is in range,
otherwise do nothing. -/
def focusAt (ns : List TreeDomNode) (newIndex : Int) : TreeAction :=
  if 0 ≤ newIndex ∧ newIndex < (ns.length : Int) then
    .focusNode (nodeAt ns newIndex.toNat).id
  else
    .noop

/-- Shallow embedding of `Tree.handleKeyDown` (Tree.tsx lines 70–155).

Arguments: `nodes` is the full document-order list of rendered tree nodes,
`activeId` the id of `document.activeElement` (an id not occurring among the
enabled nodes models any other active element, e.g. the tree `ul` itself), and
`key` the pressed key.

The result is `none` when the handler throws: after computing
`currentIndex = nodes.findIndex(...)`, the code dereferences
`nodes[currentIndex]` to look up the expander icon *before* switching on the
key, so `currentIndex === -1` makes `nodes[-1].querySelector` a `TypeError`.
Otherwise `some a` is the action the handler performs. -/
def handleKeyDown (nodes : List TreeDomNode) (activeId : String)
    (key : TreeKey) : Option TreeAction :=
  let ns := enabledNodes nodes
  if ns.isEmpty then
    some .noop
  else
    let currentIndex := jsFindIndex (fun n => n.id == activeId) ns
    if currentIndex = -1 then
      none
    else
      let current := nodeAt ns currentIndex.toNat
      match key with
      | .arrowDown => some (focusAt ns (currentIndex + 1))
      | .arrowUp => some (focusAt ns (currentIndex - 1))
      | .arrowLeft =>
        if !current.hasExpander || !current.isExpanded then
          let parentIndex :=
            jsFindIndex (fun n => n.subNodeIds.contains current.id) ns
          if parentIndex ≠ -1 then
            some (focusAt ns parentIndex)
          else
            some (focusAt ns (currentIndex - 1))
        else
          some (.clickExpander current.id)
      | .arrowRight =>
        if !current.hasExpander || current.isExpanded then
          some (focusAt ns (currentIndex + 1))
        else
          some (.clickExpander current.id)
      | .enterOrSpace => some (.clickNode current.id)
      | .other => some (focusAt ns (-1))

/-! ## ComboBox: options, state and handlers

`ComboBox` extends each entry of its `options` prop into an
`ExtendedSelectOption` carrying a generated `id` and its `index` in the
original `options` array (ComboBox.tsx `mapOptions`).  `ExtOption α` models
such an extended option with value type `α`; `disabled` models the optional
`disabled` field of `SelectOption` (absent ≡ `false`). -/

structure ExtOption (α : Type) where
  label : String
  value : α
  disabled : Bool
  id : String
  index : Nat
  deriving Repr, DecidableEq

/-- `optionsMap.current[id]`: lookup of an extended option by its id.  The
`Record<string, ExtendedSelectOption<T>>` built by `mapOptions` is modelled as
the association list of its entries. -/
def lookupMap (m : List (ExtOption α)) (id : String) : Option (ExtOption α) :=
  m.find? (fun e => e.id == id)

/-- The keys distinguished by the ComboBox `onKeyDown` `switch`. -/
inductive ComboKey where
  | arrowDown
  | arrowUp
  | enter
  | escape
  | tab
  | other
  deriving Repr, DecidableEq

/-- One observable step performed by a ComboBox event handler: a state-setter
call or an invocation of the user's `onChange` callback. -/
inductive ComboAction (α : Type) where
  | setFocused (o : Option (ExtOption α))
  | setIsOpen (b : Bool)
  /-- `setIsOpen((open) => !open)` in the Enter branch. -/
  | toggleOpen
  | setSelectedValueId (id : String)
  | callOnChange (v : α)
  | preventDefault
  | stopPropagation
  deriving Repr, DecidableEq

/-- The `filteredOptions.find((option, index) => index > filteredFocusedIndex
&& !option.disabled)` call of the ArrowDown branch: `index` ranges over
positions in the *filtered* list, while `filteredFocusedIndex` is the focused
option's stored `index` into the original `options` array. -/
def findNextEnabledAux (ffi : Int) : List (ExtOption α) → Nat → Option (ExtOption α)
  | [], _ => none
  | o :: os, i =>
    if (i : Int) > ffi ∧ !o.disabled then some o
    else findNextEnabledAux ffi os (i + 1)

def findNextEnabled (opts : List (ExtOption α)) (ffi : Int) : Option (ExtOption α) :=
  findNextEnabledAux ffi opts 0

/-- The ArrowUp branch's descending scan
`for (let i = filteredFocusedIndex - 1; i >= 0; --i)`, picking the first `i`
with `!!filteredOptions[i] && !filteredOptions[i].disabled`.  `scanUpFrom opts
i` inspects indexes `i, i-1, …, 0`. -/
def scanUpFrom (opts : List (ExtOption α)) : Nat → Option (ExtOption α)
  | 0 =>
    match opts.get? 0 with
    | some o => if !o.disabled then some o else none
    | none => none
  | i + 1 =>
    match opts.get? (i + 1) with
    | some o => if !o.disabled then some o else scanUpFrom opts i
    | none => scanUpFrom opts i

/-- The slice of ComboBox view-state read and written by its `onKeyDown`
handler and selection logic.  `selectedValueId`, `inputValue` and `minWidth`
are not read by `onKeyDown` (its `useCallback` dependency list is `[isOpen,
focusedIndex, filteredOptions]`). -/
structure ComboState (α : Type) where
  isOpen : Bool
  focusedIndex : Option (ExtOption α)
  filteredOptions : List (ExtOption α)
  selectedValueId : Option String
  inputValue : String
  minWidth : Nat
  deriving Repr, DecidableEq

/-- `const filteredFocusedIndex = focusedIndex?.index ?? -1` in the ArrowDown
branch: the stored `index` (into the original `options` array) of the focused
option, or `-1` when nothing is focused. -/
def filteredFocusedIndex (s : ComboState α) : Int :=
  match s.focusedIndex with
  | some f => (f.index : Int)
  | none => -1

/-- Shallow embedding of the ComboBox `onKeyDown` handler (ComboBox.tsx lines
313–386): the sequence of setter/callback/event actions it performs, as a
function of the pressed key and the state slice `[isOpen, focusedIndex,
filteredOptions]` it closes over. -/
def comboOnKeyDown (s : ComboState α) (key : ComboKey) : List (ComboAction α) :=
  match key with
  | .arrowDown =>
    (if s.isOpen then
      match findNextEnabled s.filteredOptions (filteredFocusedIndex s) with
      | some nextFilteredOption => [.setFocused (some nextFilteredOption)]
      | none => []
    else
      [.setIsOpen true]) ++ [.preventDefault, .stopPropagation]
  | .arrowUp =>
    (match s.isOpen, s.focusedIndex with
    | true, some f =>
      if f.index = 0 then []
      else
        match scanUpFrom s.filteredOptions (f.index - 1) with
        | some nextFilteredOption => [.setFocused (some nextFilteredOption)]
        | none => []
    | _, _ => []) ++ [.preventDefault, .stopPropagation]
  | .enter =>
    (match s.isOpen, s.focusedIndex with
    | true, some f => [.setSelectedValueId f.id, .callOnChange f.value]
    | _, _ => []) ++ [.toggleOpen, .preventDefault, .stopPropagation]
  | .escape => [.setIsOpen false, .preventDefault, .stopPropagation]
  | .tab => [.setIsOpen false]
  | .other => if !s.isOpen then [.setIsOpen true] else []

/-- The `onClick` attached to each dropdown option (in `mapOptions` /
`getSingleMenuItem`): `setSelectedValueId(id)`, `userOnChange.current?.(value)`,
`setIsOpen(false)`. -/
def optionClickActions (o : ExtOption α) : List (ComboAction α) :=
  [.setSelectedValueId o.id, .callOnChange o.value, .setIsOpen false]

/-- Apply a single setter action to the view-state (`callOnChange`,
`preventDefault` and `stopPropagation` do not change widget state). -/
def applyAction (s : ComboState α) : ComboAction α → ComboState α
  | .setFocused o => { s with focusedIndex := o }
  | .setIsOpen b => { s with isOpen := b }
  | .toggleOpen => { s with isOpen := !s.isOpen }
  | .setSelectedValueId id => { s with selectedValueId := some id }
  | .callOnChange _ => s
  | .preventDefault => s
  | .stopPropagation => s

/-- Apply a handler's action sequence to the view-state, in order. -/
def applyActions (s : ComboState α) (as : List (ComboAction α)) : ComboState α :=
  as.foldl applyAction s

/-- The `React.useEffect` at ComboBox.tsx lines 249–260: whenever
`selectedValueId` changes to an id present in `optionsMap`, copy the selected
option's label into `inputValue` and focus the selected option. -/
def runSelectedEffect (m : List (ExtOption α)) (s : ComboState α) : ComboState α :=
  match s.selectedValueId with
  | none => s
  | some id =>
    match lookupMap m id with
    | none => s
    | some selectedOption =>
      { s with inputValue := selectedOption.label,
               focusedIndex := some selectedOption }

/-- The popover `onHide` callback (ComboBox.tsx lines 525–534), run when the
dropdown closes: reset `focusedIndex` to the selected option and, when one is
selected, reset `inputValue` to its label. -/
def runOnHide (m : List (ExtOption α)) (s : ComboState α) : ComboState α :=
  let selectedIndex :=
    match s.selectedValueId with
    | some id => lookupMap m id
    | none => none
  let s' := { s with focusedIndex := selectedIndex }
  match selectedIndex with
  | some o => { s' with inputValue := o.label }
  | none => s'

/-! ## ComboBox: the filtering effect -/

/-- Contiguous-sublist test underlying `jsIncludes`. -/
def containsSublist (pat : List Char) : List Char → Bool
  | [] => pat.isEmpty
  | c :: rest => pat.isPrefixOf (c :: rest) || containsSublist pat rest

/-- JavaScript `String.prototype.includes`: substring containment (true for
the empty pattern). -/
def jsIncludes (s pat : String) : Bool :=
  containsSublist pat.data s.data

/-- JavaScript `String.prototype.toLowerCase` (modelled on the ASCII range,
character by character). -/
def jsToLower (s : String) : String :=
  String.mk (s.data.map Char.toLower)

/-- JavaScript `String.prototype.trim`: strip leading and trailing
whitespace. -/
def jsTrim (s : String) : String :=
  String.mk
    (((s.data.dropWhile Char.isWhitespace).reverse.dropWhile
        Char.isWhitespace).reverse)

/-- Shallow embedding of the filtering `React.useEffect` (ComboBox.tsx lines
262–311) in its default-filter form, i.e. when no custom `filterFunction`
prop is supplied.  Returns the new value of `filteredOptions`:

* when the dropdown is closed the effect returns early, leaving
  `currentFiltered` in place;
* when the input is empty (`!inputValue`) or equal to the selected option's
  label, the whole `extendedOriginalOptions` list is restored;
* otherwise the options are filtered by
  `option.label.toLowerCase().includes(inputValue.trim().toLowerCase())`.

`selectedValue` models
`const selectedValue = selectedValueId ? optionsMap.current[selectedValueId] : undefined`. -/
def selectedValue (m : List (ExtOption α)) (selectedValueId : Option String) :
    Option (ExtOption α) :=
  match selectedValueId with
  | some id => lookupMap m id
  | none => none

def filterEffect (m : List (ExtOption α)) (isOpen : Bool)
    (extendedOriginalOptions : List (ExtOption α))
    (selectedValueId : Option String) (inputValue : String)
    (currentFiltered : List (ExtOption α)) : List (ExtOption α) :=
  if !isOpen then
    currentFiltered
  else
    let selectedLabelMatches : Bool :=
      match selectedValue m selectedValueId with
      | some s => s.label == inputValue
      | none => false
    if inputValue == "" || selectedLabelMatches then
      extendedOriginalOptions
    else
      extendedOriginalOptions.filter fun option =>
        jsIncludes (jsToLower option.label) (jsToLower (jsTrim inputValue))

/-! ## ComboBox: dropdown menu content -/

/-- An entry rendered inside the dropdown `Menu`. -/
inductive MenuEntry (α : Type) where
  /-- `<MenuExtraContent><Text isMuted>{emptyStateMessage}</Text></MenuExtraContent>` -/
  | emptyState (message : String)
  /-- A `MenuItem` (or custom-rendered item) for one filtered option. -/
  | item (o : ExtOption α)
  deriving Repr, DecidableEq

/-- The `@default` of the `emptyStateMessage` prop, applied in the props
destructuring (`emptyStateMessage = 'No options found'`). -/
def resolveEmptyStateMessage (prop : Option String) : String :=
  prop.getD "No options found"

/-- The `menuItems` memo (ComboBox.tsx lines 442–451): a single empty-state
entry when the filtered list is empty, otherwise one item per filtered
option. -/
def menuItems (filteredOptions : List (ExtOption α)) (emptyStateMessage : String) :
    List (MenuEntry α) :=
  if filteredOptions.length = 0 then
    [.emptyState emptyStateMessage]
  else
    filteredOptions.map .item

/-! ## Rendered ARIA attributes -/

/-- The accessibility-relevant attributes placed on the ComboBox `Input`
element (ComboBox.tsx lines 536–552). -/
structure ComboInputAttrs where
  role : String
  ariaControls : Option String
  ariaActivedescendant : Option String
  ariaAutocomplete : String
  deriving Repr, DecidableEq

/-- Attribute assembly for the ComboBox `Input`:
`role='combobox'`, `aria-controls={isOpen ? id + '-list' : undefined}`,
`aria-activedescendant={isOpen && focusedIndex ? focusedIndex.id : undefined}`,
`aria-autocomplete='list'`. -/
def comboBoxInputAttrs (id : String) (isOpen : Bool)
    (focusedIndex : Option (ExtOption α)) : ComboInputAttrs :=
  { role := "combobox"
    ariaControls := if isOpen then some (id ++ "-list") else none
    ariaActivedescendant :=
      if isOpen then focusedIndex.map (fun f => f.id) else none
    ariaAutocomplete := "list" }

/-- The attributes of the Tree's root `ul` element (Tree.tsx lines 178–185). -/
structure TreeRootAttrs where
  role : String
  deriving Repr, DecidableEq

/-- The Tree renders `<ul className={...} role='tree' ...>`. -/
def treeRootAttrs : TreeRootAttrs := { role := "tree" }

/-- The props of `TreeNode` that determine its `li` attributes; `Option`
models an omitted optional prop (each `@default false`). -/
structure TreeNodeAriaProps where
  nodeId : String
  hasSubNodes : Option Bool
  isDisabled : Option Bool
  isExpanded : Option Bool
  isSelected : Option Bool
  deriving Repr, DecidableEq

/-- The attributes placed on the `li` rendered by `TreeNode`. -/
structure TreeItemAttrs where
  role : String
  id : String
  ariaExpanded : Bool
  ariaDisabled : Bool
  deriving Repr, DecidableEq

/-- `TreeNode` renders `<li role='treeitem' id={nodeId}
aria-expanded={isExpanded} aria-disabled={isDisabled}>` where the props
default to `false` in the destructuring (TreeNode.tsx lines 91–138). -/
def treeNodeLiAttrs (p : TreeNodeAriaProps) : TreeItemAttrs :=
  { role := "treeitem"
    id := p.nodeId
    ariaExpanded := p.isExpanded.getD false
    ariaDisabled := p.isDisabled.getD false }

/-! ## Tree: `flatNodesList`

`Tree` turns its `data` array into a flat render list with `addSubNodes`:
each element is converted by `getNode` into a `NodeData` (carrying `subNodes`,
`isExpanded`, …), its `depth` field is set, it is pushed, and its `subNodes`
are recursed into only when it `isExpanded`.  `RTree` models an element of
`data` together with the (recursive) unfolding of `getNode` on it: `getNode`
applied to the element yields exactly the `nodeId`/`isExpanded`/`isDisabled`
flags and `subNodes` list stored in the constructor.  A flattened entry is
modelled as the pair of the node and the `depth` written into it. -/

inductive RTree where
  | node (nodeId : String) (isExpanded : Bool) (isDisabled : Bool)
         (subNodes : List RTree)

def RTree.nodeId : RTree → String
  | .node i _ _ _ => i

def RTree.isExpanded : RTree → Bool
  | .node _ e _ _ => e

def RTree.subNodes : RTree → List RTree
  | .node _ _ _ s => s

/-- The `flatNodesList` memo (Tree.tsx lines 157–176), generalized over the
starting depth: `data.forEach((element) => addSubNodes(element, depth))`
where `addSubNodes` pushes `(element, depth)` and, when the node is expanded,
recurses into its sub-nodes at `depth + 1`.  `Tree` renders
`flatNodesList data 0`. -/
def flatNodesList : List RTree → Nat → List (RTree × Nat)
  | [], _ => []
  | RTree.node i e d subs :: ts, depth =>
    (RTree.node i e d subs, depth) ::
      ((if e then flatNodesList subs (depth + 1) else []) ++
        flatNodesList ts depth)

/-- Specification-side traversal: every node of the forest in depth-first
preorder, annotated with its depth (distance from a root, roots at `depth`)
and with whether *all* of its proper ancestors are expanded
(`ancestorsExpanded`). -/
def annotateForest (ancestorsExpanded : Bool) (depth : Nat) :
    List RTree → List (RTree × Nat × Bool)
  | [] => []
  | RTree.node i e d subs :: ts =>
    (RTree.node i e d subs, depth, ancestorsExpanded) ::
      (annotateForest (ancestorsExpanded && e) (depth + 1) subs ++
        annotateForest ancestorsExpanded depth ts)

/-- Keep exactly the annotated nodes whose ancestors are all expanded,
forgetting the annotation. -/
def visibleEntries (l : List (RTree × Nat × Bool)) : List (RTree × Nat) :=
  l.filterMap fun x => if x.2.2 then some (x.1, x.2.1) else none

/-- The specification's flattened list, built from its own words: take the
full depth-first preorder of the forest and keep a node exactly when every
ancestor on its path from a root is expanded, with its distance from the
root as depth. -/
def specVisibleList (data : List RTree) : List (RTree × Nat) :=
  visibleEntries (annotateForest true 0 data)

/-! ## Tree: mutation footprint of the flattening pass

`addSubNodes` mutates the `NodeData` object returned by `getNode`
(`flatNode.depth = depth`).  To reason about which JavaScript objects are
written, we model object identity explicitly: a heap maps addresses (`Nat`)
to `NodeData` object contents, `data` is the list of addresses of the
caller's elements, and `getNode` maps an element address to the address of
the `NodeData` object it returns (whose `node` field holds the element's
address and whose `subNodes` field holds addresses of child elements). -/

/-- The fields of a `NodeData<T>` object living in the heap; `depth` is the
only field the flattening pass assigns to (`none` models an absent/`undefined`
`depth`). -/
structure HeapNodeData where
  subNodes : List Nat
  nodeId : String
  node : Nat
  isExpanded : Bool
  isDisabled : Bool
  depth : Option Nat
  deriving Repr, DecidableEq

/-- A JavaScript heap of `NodeData` objects, addressed by `Nat`. -/
def Heap : Type := Nat → HeapNodeData

/-- `flatNode.depth = depth`: overwrite only the `depth` field of the object
at `addr`. -/
def writeDepth (h : Heap) (addr : Nat) (d : Nat) : Heap :=
  fun a => if a = addr then { h addr with depth := some d } else h a

/-- The object with its mutable `depth` field forgotten; two objects with the
same `clearDepth` differ at most in `depth`. -/
def HeapNodeData.clearDepth (n : HeapNodeData) : HeapNodeData :=
  { n with depth := none }

mutual
/-- Heap-level embedding of `addSubNodes(element, depth)` (Tree.tsx lines
160–169): look up the `NodeData` address via `getNode`, assign its `depth`
field, emit its address into the flat list and, when it `isExpanded`, recurse
into its `subNodes` at `depth + 1`.  `fuel` bounds the recursion depth,
modelling the JavaScript call stack; every theorem below holds for every
`fuel`. -/
def addSubNodesH (getNode : Nat → Nat) :
    Nat → Nat → Nat → Heap → Heap × List Nat
  | 0, _, _, h => (h, [])
  | fuel + 1, element, depth, h =>
    let addr := getNode element
    let h1 := writeDepth h addr depth
    if (h1 addr).isExpanded then
      let r := addSubNodesListH getNode fuel (h1 addr).subNodes (depth + 1) h1
      (r.1, addr :: r.2)
    else
      (h1, [addr])
termination_by fuel _ _ _ => (fuel, 0)

/-- `elements.forEach((subNode) => addSubNodes(subNode, depth))`, threading
the heap left to right. -/
def addSubNodesListH (getNode : Nat → Nat) :
    Nat → List Nat → Nat → Heap → Heap × List Nat
  | _, [], _, h => (h, [])
  | fuel, e :: es, depth, h =>
    let r1 := addSubNodesH getNode fuel e depth h
    let r2 := addSubNodesListH getNode fuel es depth r1.1
    (r2.1, r1.2 ++ r2.2)
termination_by fuel es _ _ => (fuel, es.length + 1)
end

/-- The whole flattening pass over the `data` array
(`data.forEach((element) => addSubNodes(element, 0))`), returning the final
heap and the flat list of visited `NodeData` addresses. -/
def flatNodesListH (getNode : Nat → Nat) (fuel : Nat) (data : List Nat)
    (h : Heap) : Heap × List Nat :=
  addSubNodesListH getNode fuel data 0 h

/-- Frame relation of the flattening pass: going from heap `h` to heap `h'`,
every address is either untouched, or is the address of a `NodeData` object
returned by `getNode` and only its `depth` field changed. -/
def HeapStep (getNode : Nat → Nat) (h h' : Heap) : Prop :=
  ∀ a : Nat, h' a = h a ∨
    ∃ e : Nat, a = getNode e ∧ (h' a).clearDepth = (h a).clearDepth

/-- Concrete heap for the C9 witness: element addresses `0` (expanded, one
child `1`) and `1` (leaf), whose `NodeData` objects live at `10` and `11`. -/
def heapW : Heap := fun a =>
  if a = 10 then ⟨[1], "A", 0, true, false, none⟩
  else if a = 11 then ⟨[], "B", 1, false, false, none⟩
  else ⟨[], "?", 99, false, false, none⟩

/-! ## ComboBox: declaration order of its stateful bindings

JavaScript `const` bindings are hoisted but uninitialized until their
declaration executes (the temporal dead zone); a `useState` lazy initializer
runs synchronously inside the `useState` call on first render, so it may only
read bindings declared strictly earlier in the component body. -/

/-- The `const` bindings of the `ComboBox` function body that the hook
initializers can refer to, in source order (ComboBox.tsx lines 138–240). -/
def comboBoxBindingOrder : List String :=
  ["id", "mapOptions", "extendedOriginalOptions", "optionsMap",
   "memoizedItems", "userOnChange", "inputRef", "toggleButtonRef", "isOpen",
   "minWidth", "filteredOptions", "focusedIndex", "selectedValueId",
   "inputValue"]

/-- The bindings read by the lazy initializer of the `focusedIndex` state,
`() => (selectedValueId ? optionsMap.current[selectedValueId] : undefined)`
(ComboBox.tsx lines 226–228). -/
def focusedIndexInitializerReads : List String :=
  ["selectedValueId", "optionsMap"]

/-- A lazy initializer of `binding` is well-defined exactly when every
binding it reads is declared strictly before `binding`; otherwise evaluating
it throws a `ReferenceError` (temporal dead zone). -/
def initializerWellDefined (binding : String) (reads : List String) : Bool :=
  reads.all fun r =>
    jsFindIndex (fun x => x == r) comboBoxBindingOrder ≠ -1 &&
      jsFindIndex (fun x => x == r) comboBoxBindingOrder <
        jsFindIndex (fun x => x == binding) comboBoxBindingOrder

/-- Concrete extended options used by the witness theorems: the `options`
array `[Item 1, Item 2, Item 3]` of the ComboBox doc example, as extended by
`mapOptions` (with `Item 3` disabled). -/
def comboOptsW : List (ExtOption Nat) :=
  [⟨"Item 1", 1, false, "cb-option0", 0⟩,
   ⟨"Item 2", 2, false, "cb-option1", 1⟩,
   ⟨"Item 3", 3, true, "cb-option2", 2⟩]

/-- Witness data mirroring the tree of the repository's
`should handle arrow key navigation` test: the document-order nodes rendered
before the focused node `Node-3` (`Node-2` is disabled). -/
def treePreW : List TreeDomNode :=
  [⟨"Node-1", false, false, false, []⟩,
   ⟨"Node-2", true, false, false, []⟩]

/-- The focused node of the witness scenario. -/
def treeCurW : TreeDomNode := ⟨"Node-3", false, true, true, ["Node-3-1"]⟩

/-- The document-order nodes rendered after the focused node (`Node-3-1-1` is
disabled). -/
def treePostW : List TreeDomNode :=
  [⟨"Node-3-1", false, true, true, ["Node-3-1-1", "Node-3-1-2"]⟩,
   ⟨"Node-3-1-1", true, false, false, []⟩,
   ⟨"Node-3-1-2", false, true, false, ["Node-3-1-2-1"]⟩]

/-! ## Theorems -/

/-! ### Search lemmas for the ComboBox arrow-key handlers -/

theorem findNextEnabledAux_mem {α : Type} (ffi : Int)
    (opts : List (ExtOption α)) :
    ∀ (i : Nat) (o : ExtOption α), findNextEnabledAux ffi opts i = some o →
      o ∈ opts ∧ o.disabled = false := by
  induction opts with
  | nil => intro i o h; simp [findNextEnabledAux] at h
  | cons p ps ih =>
    intro i o h
    rw [findNextEnabledAux] at h
    split at h
    · rename_i hc
      cases h
      exact ⟨List.mem_cons_self _ _, by simpa using hc.2⟩
    · rcases ih (i + 1) o h with ⟨hmem, hdis⟩
      exact ⟨List.mem_cons_of_mem _ hmem, hdis⟩


theorem findNextEnabledAux_none {α : Type} (ffi : Int)
    (opts : List (ExtOption α)) :
    ∀ i : Nat,
      (∀ (j : Nat) (o : ExtOption α), opts.get? j = some o →
        ((i : Int) + j > ffi) → o.disabled = true) →
      findNextEnabledAux ffi opts i = none := by
  induction opts with
  | nil => intro i _; rfl
  | cons p ps ih =>
    intro i h
    rw [findNextEnabledAux]
    rw [if_neg]
    · exact ih (i + 1) fun j o hj hgt => by
        refine h (j + 1) o (by simpa using hj) ?_
        push_cast
        push_cast at hgt
        omega
    · rintro ⟨hgt, hdis⟩
      have := h 0 p rfl (by simpa using hgt)
      simp [this] at hdis

theorem findNextEnabled_mem {α : Type} (ffi : Int)
    (opts : List (ExtOption α)) (o : ExtOption α)
    (h : findNextEnabled opts ffi = some o) :
    o ∈ opts ∧ o.disabled = false :=
  findNextEnabledAux_mem ffi opts 0 o h

theorem findNextEnabled_none {α : Type} (ffi : Int)
    (opts : List (ExtOption α))
    (h : ∀ (j : Nat) (o : ExtOption α), opts.get? j = some o →
      ((j : Int) > ffi) → o.disabled = true) :
    findNextEnabled opts ffi = none :=
  findNextEnabledAux_none ffi opts 0 fun j o hj hgt =>
    h j o hj (by push_cast at hgt ⊢; omega)

theorem scanUpFrom_zero_some {α : Type} {opts : List (ExtOption α)}
    {p : ExtOption α} (hg : opts.get? 0 = some p) :
    scanUpFrom opts 0 = if (!p.disabled) = true then some p else none := by
  rw [scanUpFrom, hg]

theorem scanUpFrom_zero_none {α : Type} {opts : List (ExtOption α)}
    (hg : opts.get? 0 = none) : scanUpFrom opts 0 = none := by
  rw [scanUpFrom, hg]

theorem scanUpFrom_succ_some {α : Type} {opts : List (ExtOption α)} {i : Nat}
    {p : ExtOption α} (hg : opts.get? (i + 1) = some p) :
    scanUpFrom opts (i + 1) =
      if (!p.disabled) = true then some p else scanUpFrom opts i := by
  rw [scanUpFrom, hg]

theorem scanUpFrom_succ_none {α : Type} {opts : List (ExtOption α)} {i : Nat}
    (hg : opts.get? (i + 1) = none) :
    scanUpFrom opts (i + 1) = scanUpFrom opts i := by
  rw [scanUpFrom, hg]

theorem scanUpFrom_mem {α : Type} (opts : List (ExtOption α)) :
    ∀ (i : Nat) (o : ExtOption α), scanUpFrom opts i = some o →
      o ∈ opts ∧ o.disabled = false := by
  intro i
  induction i with
  | zero =>
    intro o h
    rcases hg : opts.get? 0 with _ | p
    · rw [scanUpFrom_zero_none hg] at h
      cases h
    · rw [scanUpFrom_zero_some hg] at h
      by_cases hd : p.disabled = false
      · rw [if_pos (by simp [hd])] at h
        cases h
        exact ⟨List.get?_mem hg, hd⟩
      · rw [if_neg (by simpa using hd)] at h
        cases h
  | succ i ih =>
    intro o h
    rcases hg : opts.get? (i + 1) with _ | p
    · rw [scanUpFrom_succ_none hg] at h
      exact ih o h
    · rw [scanUpFrom_succ_some hg] at h
      by_cases hd : p.disabled = false
      · rw [if_pos (by simp [hd])] at h
        cases h
        exact ⟨List.get?_mem hg, hd⟩
      · rw [if_neg (by simpa using hd)] at h
        exact ih o h

theorem scanUpFrom_none {α : Type} (opts : List (ExtOption α)) :
    ∀ i : Nat,
      (∀ (j : Nat) (o : ExtOption α), j ≤ i → opts.get? j = some o →
        o.disabled = true) →
      scanUpFrom opts i = none := by
  intro i
  induction i with
  | zero =>
    intro h
    rcases hg : opts.get? 0 with _ | p
    · exact scanUpFrom_zero_none hg
    · rw [scanUpFrom_zero_some hg,
        if_neg (by simp [h 0 p (le_refl 0) hg])]
  | succ i ih =>
    intro h
    rcases hg : opts.get? (i + 1) with _ | p
    · rw [scanUpFrom_succ_none hg]
      exact ih fun j o hj ho => h j o (Nat.le_succ_of_le hj) ho
    · rw [scanUpFrom_succ_some hg,
        if_neg (by simp [h (i + 1) p (le_refl _) hg])]
      exact ih fun j o hj ho => h j o (Nat.le_succ_of_le hj) ho

/-- **C5.** The ComboBox renders its input element with `role="combobox"` and
with `aria-controls` equal to the dropdown list's id `id ++ "-list"` exactly
when the dropdown is open; the Tree renders its root list with `role="tree"`;
and every `TreeNode` renders a list item with `role="treeitem"` whose
`aria-expanded` attribute equals its `isExpanded` prop, defaulting to `false`
when the prop is omitted. -/
theorem claim_C5_aria_attributes :
    (∀ (α : Type) (id : String) (isOpen : Bool)
        (focusedIndex : Option (ExtOption α)),
      (comboBoxInputAttrs id isOpen focusedIndex).role = "combobox" ∧
      (comboBoxInputAttrs id isOpen focusedIndex).ariaControls =
        (if isOpen then some (id ++ "-list") else none) ∧
      ((comboBoxInputAttrs id isOpen focusedIndex).ariaControls =
          some (id ++ "-list") ↔ isOpen = true)) ∧
    treeRootAttrs.role = "tree" ∧
    (∀ p : TreeNodeAriaProps,
      (treeNodeLiAttrs p).role = "treeitem" ∧
      (treeNodeLiAttrs p).ariaExpanded = p.isExpanded.getD false) := by
  refine ⟨fun α id isOpen focusedIndex => ⟨rfl, rfl, ?_⟩, rfl, fun p => ⟨rfl, rfl⟩⟩
  cases isOpen <;> simp [comboBoxInputAttrs]

/-- **C10.** Whenever the ComboBox's filtered option list is empty, `menuItems`
consists of exactly one empty-state entry carrying the `emptyStateMessage`
text — which resolves to `"No options found"` when the prop is omitted — and
contains no option items. -/
theorem claim_C10_empty_state :
    (∀ (α : Type) (emptyStateMessage : Option String),
      menuItems ([] : List (ExtOption α))
          (resolveEmptyStateMessage emptyStateMessage) =
        [MenuEntry.emptyState (resolveEmptyStateMessage emptyStateMessage)] ∧
      ∀ o : ExtOption α,
        MenuEntry.item o ∉
          menuItems ([] : List (ExtOption α))
            (resolveEmptyStateMessage emptyStateMessage)) ∧
    resolveEmptyStateMessage none = "No options found" := by
  refine ⟨fun α emptyStateMessage => ⟨rfl, fun o => ?_⟩, rfl⟩
  simp [menuItems]

/-- **C3.** The claim that rendering and event handling never raise a runtime
error fails on the code, in two places.  First, `Tree.handleKeyDown` computes
`currentIndex = nodes.findIndex(...)` and immediately dereferences
`nodes[currentIndex]` (Tree.tsx line 85), so when the active element is not
one of the enabled tree nodes the handler evaluates
`undefined.querySelector`, a `TypeError` (modelled by the `none` result):
here shown for a tree with one enabled node and focus on the tree container
itself.  Second, the lazy initializer of the `focusedIndex` state
(ComboBox.tsx lines 226–228) reads `selectedValueId`, which is declared only
afterwards (line 231), so the first render throws a `ReferenceError`
(temporal dead zone); the binding-order check makes this precise.  The last
conjunct shows the same check accepts an initializer that reads only earlier
bindings, so the check is not vacuous. -/
theorem claim_C3_runtime_error_evidence :
    handleKeyDown [⟨"Node-1", false, false, false, []⟩] "tree-root"
        TreeKey.arrowDown = none ∧
    initializerWellDefined "focusedIndex" focusedIndexInitializerReads = false ∧
    initializerWellDefined "inputValue" ["selectedValueId"] = true := by
  decide

/-- **C8.** Every state change computed by the handlers is a synchronous,
deterministic function of the view-state slice they read and the triggering
key event: the ComboBox `onKeyDown` handler produces identical action
sequences (state setters and `onChange` callback invocations) from any two
states that agree on `isOpen`, `focusedIndex` and `filteredOptions` — its
`useCallback` dependency list — regardless of the remaining state, and two
runs of the Tree `handleKeyDown` handler from the same DOM state and event
coincide. -/
theorem claim_C8_deterministic_handlers {α : Type} (s t : ComboState α)
    (key : ComboKey) (h1 : s.isOpen = t.isOpen)
    (h2 : s.focusedIndex = t.focusedIndex)
    (h3 : s.filteredOptions = t.filteredOptions) :
    comboOnKeyDown s key = comboOnKeyDown t key ∧
    ∀ (nodes nodes' : List TreeDomNode) (activeId activeId' : String)
      (k k' : TreeKey), nodes = nodes' → activeId = activeId' → k = k' →
      handleKeyDown nodes activeId k = handleKeyDown nodes' activeId' k' := by
  constructor
  · cases key <;>
      simp only [comboOnKeyDown, filteredFocusedIndex, h1, h2, h3]
  · intro nodes nodes' activeId activeId' k k' e1 e2 e3
    rw [e1, e2, e3]

/-- Witness for C8 at concrete states that differ in `selectedValueId`,
`inputValue` and `minWidth` but agree on the slice the handler reads. -/
theorem claim_C8_witness :
    comboOnKeyDown (α := Nat)
        ⟨true, none, [⟨"Item 1", 1, false, "cb-option0", 0⟩], none, "", 0⟩
        ComboKey.arrowDown =
      comboOnKeyDown (α := Nat)
        ⟨true, none, [⟨"Item 1", 1, false, "cb-option0", 0⟩],
          some "cb-option0", "Item 1", 42⟩ ComboKey.arrowDown :=
  (claim_C8_deterministic_handlers
    ⟨true, none, [⟨"Item 1", 1, false, "cb-option0", 0⟩], none, "", 0⟩
    ⟨true, none, [⟨"Item 1", 1, false, "cb-option0", 0⟩],
      some "cb-option0", "Item 1", 42⟩
    ComboKey.arrowDown rfl rfl rfl).1

/-! ### Lemmas for the mutation footprint of the flattening pass -/

theorem heapStep_refl (getNode : Nat → Nat) (h : Heap) :
    HeapStep getNode h h :=
  fun _ => Or.inl rfl

theorem heapStep_trans {getNode : Nat → Nat} {h1 h2 h3 : Heap}
    (a12 : HeapStep getNode h1 h2) (a23 : HeapStep getNode h2 h3) :
    HeapStep getNode h1 h3 := by
  intro a
  rcases a12 a with e12 | ⟨e, he, hc12⟩
  · rcases a23 a with e23 | ⟨e, he, hc23⟩
    · exact Or.inl (e23.trans e12)
    · exact Or.inr ⟨e, he, by rw [hc23, e12]⟩
  · rcases a23 a with e23 | ⟨e', he', hc23⟩
    · exact Or.inr ⟨e, he, by rw [e23, hc12]⟩
    · exact Or.inr ⟨e, he, hc23.trans hc12⟩

theorem heapStep_write (getNode : Nat → Nat) (h : Heap) (e d : Nat) :
    HeapStep getNode h (writeDepth h (getNode e) d) := by
  intro a
  by_cases ha : a = getNode e
  · refine Or.inr ⟨e, ha, ?_⟩
    simp [writeDepth, ha, HeapNodeData.clearDepth]
  · exact Or.inl (by simp [writeDepth, ha])

mutual
theorem addSubNodesH_step (getNode : Nat → Nat) :
    ∀ (fuel element depth : Nat) (h : Heap),
      HeapStep getNode h (addSubNodesH getNode fuel element depth h).1
  | 0, element, depth, h => by
    simp only [addSubNodesH]
    exact heapStep_refl getNode h
  | fuel + 1, element, depth, h => by
    simp only [addSubNodesH]
    split
    · exact heapStep_trans (heapStep_write getNode h element depth)
        (addSubNodesListH_step getNode fuel _ (depth + 1) _)
    · exact heapStep_write getNode h element depth
termination_by fuel _ _ _ => (fuel, 0)

theorem addSubNodesListH_step (getNode : Nat → Nat) :
    ∀ (fuel : Nat) (es : List Nat) (depth : Nat) (h : Heap),
      HeapStep getNode h (addSubNodesListH getNode fuel es depth h).1
  | fuel, [], depth, h => by
    simp only [addSubNodesListH]
    exact heapStep_refl getNode h
  | fuel, e :: es, depth, h => by
    simp only [addSubNodesListH]
    exact heapStep_trans (addSubNodesH_step getNode fuel e depth h)
      (addSubNodesListH_step getNode fuel es depth _)
termination_by fuel es _ _ => (fuel, es.length + 1)
end

/-- **C9.** The flattening pass only ever assigns the `depth` field of the
`NodeData` objects returned by `getNode`: at every address, the final object
agrees with the initial one outside `depth`; and when `getNode` returns
objects distinct from the elements of `data`, the elements of `data` are left
entirely unchanged — for every recursion-depth bound `fuel`. -/
theorem claim_C9_flatten_writes_only_depth (getNode : Nat → Nat) (fuel : Nat)
    (data : List Nat) (h : Heap) (hdisj : ∀ e : Nat, getNode e ∉ data) :
    (∀ a : Nat, ((flatNodesListH getNode fuel data h).1 a).clearDepth =
      (h a).clearDepth) ∧
    (∀ d ∈ data, (flatNodesListH getNode fuel data h).1 d = h d) := by
  have hstep : HeapStep getNode h (flatNodesListH getNode fuel data h).1 :=
    addSubNodesListH_step getNode fuel data 0 h
  constructor
  · intro a
    rcases hstep a with he | ⟨e, _, hc⟩
    · rw [he]
    · exact hc
  · intro d hd
    rcases hstep d with he | ⟨e, hde, _⟩
    · exact he
    · exact absurd (hde ▸ hd) (hdisj e)

/-- Witness for C9: on a two-element heap whose `NodeData` objects live at
separate addresses, the flattening pass leaves the `data` element at address
`0` untouched and changes the `NodeData` object at address `10` at most in
its `depth` field. -/
theorem claim_C9_witness :
    (flatNodesListH (fun e => e + 10) 5 [0, 1] heapW).1 0 = heapW 0 ∧
    ((flatNodesListH (fun e => e + 10) 5 [0, 1] heapW).1 10).clearDepth =
      (heapW 10).clearDepth := by
  have h := claim_C9_flatten_writes_only_depth (fun e => e + 10) 5 [0, 1]
    heapW (by intro e hmem; simp [List.mem_cons] at hmem)
  exact ⟨h.2 0 (by simp), h.1 10⟩

/-! ### Lemmas for the Tree flattening pass -/

theorem visibleEntries_nil : visibleEntries [] = [] := rfl

theorem visibleEntries_cons_true (t : RTree) (d : Nat)
    (rest : List (RTree × Nat × Bool)) :
    visibleEntries ((t, d, true) :: rest) = (t, d) :: visibleEntries rest := by
  simp [visibleEntries]

theorem visibleEntries_cons_false (t : RTree) (d : Nat)
    (rest : List (RTree × Nat × Bool)) :
    visibleEntries ((t, d, false) :: rest) = visibleEntries rest := by
  simp [visibleEntries]

theorem visibleEntries_append (l1 l2 : List (RTree × Nat × Bool)) :
    visibleEntries (l1 ++ l2) = visibleEntries l1 ++ visibleEntries l2 := by
  simp [visibleEntries, List.filterMap_append]

theorem annotateForest_false_invisible :
    ∀ (ts : List RTree) (d : Nat),
      visibleEntries (annotateForest false d ts) = []
  | [], _ => by simp [annotateForest, visibleEntries]
  | RTree.node i e dis subs :: ts, d => by
    simp only [annotateForest, Bool.false_and]
    rw [visibleEntries_cons_false, visibleEntries_append,
      annotateForest_false_invisible subs (d + 1),
      annotateForest_false_invisible ts d]
    rfl

theorem annotateForest_true_flat :
    ∀ (ts : List RTree) (d : Nat),
      visibleEntries (annotateForest true d ts) = flatNodesList ts d
  | [], _ => by simp [annotateForest, flatNodesList, visibleEntries]
  | RTree.node i e dis subs :: ts, d => by
    simp only [annotateForest, flatNodesList, Bool.true_and]
    rw [visibleEntries_cons_true, visibleEntries_append]
    cases e with
    | true =>
      rw [annotateForest_true_flat subs (d + 1),
        annotateForest_true_flat ts d]
      simp
    | false =>
      rw [annotateForest_false_invisible subs (d + 1),
        annotateForest_true_flat ts d]
      simp

/-- **C4.** For every data forest, the Tree's flattened node list equals the
specification-side list: the depth-first preorder of all nodes, restricted to
exactly those whose ancestors are all expanded (so a node below any collapsed
parent never appears, regardless of its own flags), each paired with its
distance from a root, roots at depth `0`.  List equality simultaneously gives
the membership characterization, the preorder ordering, and the depth law of
the claim. -/
theorem claim_C4_flatten_is_visible_preorder :
    ∀ data : List RTree, flatNodesList data 0 = specVisibleList data :=
  fun data => (annotateForest_true_flat data 0).symm

/-! ### List lemmas for the Tree arrow-key navigation -/

theorem jsFindIndex_append_cons {α : Type} (p : α → Bool) :
    ∀ (l1 : List α) (x : α) (l2 : List α), (∀ a ∈ l1, p a = false) →
      p x = true → jsFindIndex p (l1 ++ x :: l2) = (l1.length : Int) := by
  intro l1
  induction l1 with
  | nil =>
    intro x l2 _ hx
    simp [jsFindIndex, hx]
  | cons a l1 ih =>
    intro x l2 h hx
    rw [List.cons_append, jsFindIndex, h a (List.mem_cons_self _ _)]
    simp only [Bool.false_eq_true, if_false]
    rw [ih x l2 (fun b hb => h b (List.mem_cons_of_mem _ hb)) hx,
      if_neg (by omega)]
    simp

theorem filter_head?_eq_find? {α : Type} (p : α → Bool) :
    ∀ l : List α, (l.filter p).head? = l.find? p := by
  intro l
  induction l with
  | nil => rfl
  | cons a l ih =>
    rw [List.filter_cons, List.find?_cons]
    by_cases hp : p a = true
    · simp [hp]
    · rw [Bool.not_eq_true] at hp
      simp [hp, ih]

theorem reverse_find?_eq_filter_getLast? {α : Type} (p : α → Bool)
    (l : List α) : l.reverse.find? p = (l.filter p).getLast? := by
  rw [← filter_head?_eq_find? p l.reverse, List.filter_reverse,
    List.head?_reverse]

/-- **C1.** In a rendered Tree whose enabled-node document order is
`pre ++ cur :: post` with `cur` enabled and focused (no preceding node shares
its id), ArrowDown focuses the next enabled node in document order — the
first non-disabled node of `post`, skipping disabled nodes — and does nothing
when `cur` is the last enabled node; symmetrically, ArrowUp focuses the
nearest non-disabled node preceding `cur` and does nothing when `cur` is the
first enabled node. -/
theorem claim_C1_tree_arrow_navigation (pre post : List TreeDomNode)
    (cur : TreeDomNode) (hcur : cur.isDisabled = false)
    (hpre : ∀ n ∈ pre, n.id ≠ cur.id) :
    handleKeyDown (pre ++ cur :: post) cur.id TreeKey.arrowDown =
      some (match post.find? (fun n => !n.isDisabled) with
            | some nxt => TreeAction.focusNode nxt.id
            | none => TreeAction.noop) ∧
    handleKeyDown (pre ++ cur :: post) cur.id TreeKey.arrowUp =
      some (match pre.reverse.find? (fun n => !n.isDisabled) with
            | some prv => TreeAction.focusNode prv.id
            | none => TreeAction.noop) := by
  have hdecomp : enabledNodes (pre ++ cur :: post) =
      enabledNodes pre ++ cur :: enabledNodes post := by
    simp [enabledNodes, List.filter_append, List.filter_cons, hcur]
  have hne : (enabledNodes pre ++ cur :: enabledNodes post).isEmpty = false :=
    List.isEmpty_eq_false.mpr (by simp)
  have hfind : jsFindIndex (fun n => n.id == cur.id)
      (enabledNodes pre ++ cur :: enabledNodes post) =
      ((enabledNodes pre).length : Int) :=
    jsFindIndex_append_cons _ _ cur _
      (fun a ha =>
        beq_eq_false_iff_ne.mpr (hpre a (List.mem_filter.mp ha).1))
      (by simp)
  constructor
  · rw [handleKeyDown]
    simp only [hdecomp, hne, Bool.false_eq_true, if_false, hfind,
      if_neg (show ¬((enabledNodes pre).length : Int) = -1 by omega)]
    rw [← filter_head?_eq_find?]
    rcases hfp : (enabledNodes post).head? with _ | nxt
    · have hfp0 : enabledNodes post = [] := List.head?_eq_none_iff.mp hfp
      rw [focusAt, if_neg (by
        rw [hfp0]
        rintro ⟨-, hlt⟩
        simp only [List.length_append, List.length_cons,
          List.length_nil] at hlt
        omega)]
      rw [show (List.filter (fun n => !n.isDisabled) post).head? = none
        from hfp]
    · have hfpne : enabledNodes post ≠ [] := by
        intro h
        rw [h] at hfp
        cases hfp
      have hfplen : 1 ≤ (enabledNodes post).length :=
        List.length_pos.mpr hfpne
      rw [focusAt, if_pos ⟨by omega, by
        simp only [List.length_append, List.length_cons]
        push_cast
        omega⟩]
      have htn : (((enabledNodes pre).length : Int) + 1).toNat =
          (enabledNodes pre).length + 1 := by omega
      rw [nodeAt, htn, List.getD_eq_get?,
        List.get?_append_right (by omega)]
      simp only [Nat.add_sub_cancel_left, List.get?_cons_succ,
        List.get?_zero, hfp, Option.getD_some]
      rw [show (List.filter (fun n => !n.isDisabled) post).head? = some nxt
        from hfp]
  · rw [handleKeyDown]
    simp only [hdecomp, hne, Bool.false_eq_true, if_false, hfind,
      if_neg (show ¬((enabledNodes pre).length : Int) = -1 by omega)]
    rw [reverse_find?_eq_filter_getLast?]
    rcases hgl : (enabledNodes pre).getLast? with _ | prv
    · have hep : enabledNodes pre = [] := by
        cases h' : enabledNodes pre with
        | nil => rfl
        | cons e0 er =>
          rw [h'] at hgl
          simp [List.getLast?] at hgl
      have hlen0 : (enabledNodes pre).length = 0 := by rw [hep]; rfl
      rw [focusAt, if_neg (by
        rw [hlen0]
        rintro ⟨h0, -⟩
        omega)]
      rw [show (List.filter (fun n => !n.isDisabled) pre).getLast? = none
        from hgl]
    · have hep : enabledNodes pre ≠ [] := by
        intro h
        rw [h] at hgl
        cases hgl
      have hlen : 1 ≤ (enabledNodes pre).length := List.length_pos.mpr hep
      rw [focusAt, if_pos ⟨by omega, by
        simp only [List.length_append, List.length_cons]
        push_cast
        omega⟩]
      have htn : (((enabledNodes pre).length : Int) - 1).toNat =
          (enabledNodes pre).length - 1 := by omega
      rw [nodeAt, htn, List.getD_eq_get?, List.get?_append (by omega),
        ← List.getLast?_eq_get?, hgl]
      rw [show (List.filter (fun n => !n.isDisabled) pre).getLast? = some prv
        from hgl]
      rfl

/-- Witness for C1 on the arrow-navigation test tree: from `Node-3`,
ArrowDown skips nothing and focuses `Node-3-1`, while ArrowUp skips the
disabled `Node-2` and focuses `Node-1`. -/
theorem claim_C1_witness :
    handleKeyDown (treePreW ++ treeCurW :: treePostW) "Node-3"
        TreeKey.arrowDown = some (TreeAction.focusNode "Node-3-1") ∧
    handleKeyDown (treePreW ++ treeCurW :: treePostW) "Node-3"
        TreeKey.arrowUp = some (TreeAction.focusNode "Node-1") := by
  have h := claim_C1_tree_arrow_navigation treePreW treePostW treeCurW rfl
    (by decide)
  exact ⟨h.1.trans (by decide), h.2.trans (by decide)⟩

/-- **C7.** While the dropdown is open, ArrowDown and ArrowUp only ever move
focus to a non-disabled member of the current filtered option list: every
`setFocused` action they emit carries such an option.  If no non-disabled
candidate exists in the chosen direction — ArrowUp when the focused option's
stored index is `0`, ArrowDown when every filtered option past the stored
index is disabled, ArrowUp when every filtered option is disabled — the
handler emits no `setFocused` action, leaving the focused option unchanged. -/
theorem claim_C7_arrow_focus_discipline {α : Type} (s : ComboState α)
    (key : ComboKey) (hopen : s.isOpen = true)
    (hkey : key = ComboKey.arrowDown ∨ key = ComboKey.arrowUp) :
    (∀ o, ComboAction.setFocused o ∈ comboOnKeyDown s key →
      ∃ opt, o = some opt ∧ opt ∈ s.filteredOptions ∧ opt.disabled = false) ∧
    (∀ f, key = ComboKey.arrowUp → s.focusedIndex = some f → f.index = 0 →
      ∀ o, ComboAction.setFocused o ∉ comboOnKeyDown s key) ∧
    (key = ComboKey.arrowDown →
      (∀ (j : Nat) (o : ExtOption α), s.filteredOptions.get? j = some o →
        ((j : Int) > filteredFocusedIndex s) → o.disabled = true) →
      ∀ o, ComboAction.setFocused o ∉ comboOnKeyDown s key) ∧
    (key = ComboKey.arrowUp →
      (∀ (j : Nat) (o : ExtOption α), s.filteredOptions.get? j = some o →
        o.disabled = true) →
      ∀ o, ComboAction.setFocused o ∉ comboOnKeyDown s key) := by
  rcases hkey with hk | hk <;> subst hk
  · refine ⟨?_, ?_, ?_, ?_⟩
    · intro o ho
      rcases hf : findNextEnabled s.filteredOptions (filteredFocusedIndex s)
        with _ | nxt
      · simp [comboOnKeyDown, hopen, hf] at ho
      · simp [comboOnKeyDown, hopen, hf] at ho
        exact ⟨nxt, ho, (findNextEnabled_mem _ _ _ hf).1,
          (findNextEnabled_mem _ _ _ hf).2⟩
    · intro f hku
      cases hku
    · intro _ hall o
      simp [comboOnKeyDown, hopen, findNextEnabled_none _ _ hall]
    · intro hku
      cases hku
  · refine ⟨?_, ?_, ?_, ?_⟩
    · intro o ho
      rcases hfoc : s.focusedIndex with _ | f
      · simp [comboOnKeyDown, hopen, hfoc] at ho
      · by_cases hidx : f.index = 0
        · simp [comboOnKeyDown, hopen, hfoc, hidx] at ho
        · rcases hs : scanUpFrom s.filteredOptions (f.index - 1) with _ | nxt
          · simp [comboOnKeyDown, hopen, hfoc, hidx, hs] at ho
          · simp [comboOnKeyDown, hopen, hfoc, hidx, hs] at ho
            exact ⟨nxt, ho, (scanUpFrom_mem _ _ _ hs).1,
              (scanUpFrom_mem _ _ _ hs).2⟩
    · intro f hku hfoc hidx o
      simp [comboOnKeyDown, hopen, hfoc, hidx]
    · intro hku
      cases hku
    · intro _ hall o
      rcases hfoc : s.focusedIndex with _ | f
      · simp [comboOnKeyDown, hopen, hfoc]
      · by_cases hidx : f.index = 0
        · simp [comboOnKeyDown, hopen, hfoc, hidx]
        · have hs : scanUpFrom s.filteredOptions (f.index - 1) = none :=
            scanUpFrom_none s.filteredOptions (f.index - 1)
              (fun j o _ ho => hall j o ho)
          simp [comboOnKeyDown, hopen, hfoc, hidx, hs]

/-- Witness for C7: in an open ComboBox whose only filtered option is
disabled, ArrowDown does not emit any focus change for that option. -/
theorem claim_C7_witness :
    ComboAction.setFocused (some ⟨"Item A", 1, true, "cb-a", 0⟩) ∉
      comboOnKeyDown (α := Nat)
        ⟨true, none, [⟨"Item A", 1, true, "cb-a", 0⟩], none, "", 0⟩
        ComboKey.arrowDown :=
  (claim_C7_arrow_focus_discipline
    ⟨true, none, [⟨"Item A", 1, true, "cb-a", 0⟩], none, "", 0⟩
    ComboKey.arrowDown rfl (Or.inl rfl)).2.2.1 rfl
    (by
      intro j o hj _
      match j, hj with
      | 0, hj => cases hj; rfl
      | j + 1, hj => cases hj)
    (some ⟨"Item A", 1, true, "cb-a", 0⟩)

/-- **C2.** With the dropdown open and no custom `filterFunction`, the
filtering effect computes: the full option list when the input is empty or
equal to the selected option's label, and otherwise exactly those options
whose lowercased label contains the trimmed, lowercased input text (stated
both as a `filter` equation and as a membership characterization). -/
theorem claim_C2_default_filtering {α : Type} (m opts cur : List (ExtOption α))
    (selectedValueId : Option String) (input : String) :
    (input = "" → filterEffect m true opts selectedValueId input cur = opts) ∧
    (∀ sel, selectedValue m selectedValueId = some sel → sel.label = input →
      filterEffect m true opts selectedValueId input cur = opts) ∧
    (input ≠ "" →
      (∀ sel, selectedValue m selectedValueId = some sel → sel.label ≠ input) →
      filterEffect m true opts selectedValueId input cur =
        opts.filter
          (fun o => jsIncludes (jsToLower o.label) (jsToLower (jsTrim input))) ∧
      ∀ o, o ∈ filterEffect m true opts selectedValueId input cur ↔
        o ∈ opts ∧
          jsIncludes (jsToLower o.label) (jsToLower (jsTrim input)) = true) := by
  refine ⟨fun h => ?_, fun sel hsel hlbl => ?_, fun hne hnsel => ?_⟩
  · subst h
    simp [filterEffect]
  · rw [filterEffect]
    simp only [Bool.not_true, Bool.false_eq_true, if_false, hsel, hlbl]
    simp
  · have hcond :
        ((input == "") ||
          (match selectedValue m selectedValueId with
            | some s => s.label == input
            | none => false)) = false := by
      rw [Bool.or_eq_false_iff]
      refine ⟨beq_eq_false_iff_ne.mpr hne, ?_⟩
      cases hsel : selectedValue m selectedValueId with
      | none => rfl
      | some sel => exact beq_eq_false_iff_ne.mpr (hnsel sel hsel)
    have heq : filterEffect m true opts selectedValueId input cur =
        opts.filter
          (fun o => jsIncludes (jsToLower o.label) (jsToLower (jsTrim input))) := by
      rw [filterEffect]
      simp only [Bool.not_true, Bool.false_eq_true, if_false]
      rw [if_neg]
      simp [hcond]
    refine ⟨heq, fun o => ?_⟩
    rw [heq]
    simp [List.mem_filter]

/-- Witness for C2: with options `Item 1`, `Item 2`, `Item 3`, nothing
selected and input `" iTem 2 "`, the dropdown-open default filter keeps
exactly `Item 2`; with empty input the full list is restored. -/
theorem claim_C2_witness :
    filterEffect comboOptsW true comboOptsW none " iTem 2 " comboOptsW =
      [⟨"Item 2", 2, false, "cb-option1", 1⟩] ∧
    filterEffect comboOptsW true comboOptsW none "" [] = comboOptsW := by
  constructor
  · have h := (claim_C2_default_filtering comboOptsW comboOptsW comboOptsW
      none " iTem 2 ").2.2 (by decide)
      (by intro sel hsel; simp [selectedValue] at hsel)
    exact h.1.trans (by decide)
  · exact (claim_C2_default_filtering comboOptsW comboOptsW comboOptsW
      none "").1 rfl

/-- **C6.** After selecting an option — clicking it in the dropdown, or
pressing Enter while it is focused and the dropdown is open — the dropdown is
closed and the view-state reflects the selection: once the
selected-value effect (ComboBox.tsx lines 249–260) and the popover's `onHide`
callback have run, the input text equals the selected option's label and the
focused option is the selected option.  The hypothesis states that the
clicked/focused option is registered in `optionsMap` under its id, which
`mapOptions` guarantees for every dropdown option. -/
theorem claim_C6_selection_closes_and_syncs {α : Type} (m : List (ExtOption α))
    (s : ComboState α) (o : ExtOption α) (hlk : lookupMap m o.id = some o) :
    ((runOnHide m (runSelectedEffect m
        (applyActions s (optionClickActions o)))).isOpen = false ∧
      (runOnHide m (runSelectedEffect m
        (applyActions s (optionClickActions o)))).inputValue = o.label ∧
      (runOnHide m (runSelectedEffect m
        (applyActions s (optionClickActions o)))).focusedIndex = some o) ∧
    (s.isOpen = true → s.focusedIndex = some o →
      (runOnHide m (runSelectedEffect m
        (applyActions s (comboOnKeyDown s ComboKey.enter)))).isOpen = false ∧
      (runOnHide m (runSelectedEffect m
        (applyActions s (comboOnKeyDown s ComboKey.enter)))).inputValue =
        o.label ∧
      (runOnHide m (runSelectedEffect m
        (applyActions s (comboOnKeyDown s ComboKey.enter)))).focusedIndex =
        some o) := by
  constructor
  · simp [optionClickActions, applyActions, applyAction, runSelectedEffect,
      runOnHide, hlk]
  · intro hopen hfoc
    simp [comboOnKeyDown, hopen, hfoc, applyActions, applyAction,
      runSelectedEffect, runOnHide, hlk]

/-- Witness for C6: clicking `Item 2` from a freshly opened ComboBox closes
the dropdown, fills the input with `"Item 2"` and focuses `Item 2`. -/
theorem claim_C6_witness :
    (runOnHide comboOptsW (runSelectedEffect comboOptsW
        (applyActions ⟨true, none, comboOptsW, none, "", 0⟩
          (optionClickActions ⟨"Item 2", 2, false, "cb-option1", 1⟩)))).isOpen
        = false ∧
    (runOnHide comboOptsW (runSelectedEffect comboOptsW
        (applyActions ⟨true, none, comboOptsW, none, "", 0⟩
          (optionClickActions
            ⟨"Item 2", 2, false, "cb-option1", 1⟩)))).inputValue = "Item 2" ∧
    (runOnHide comboOptsW (runSelectedEffect comboOptsW
        (applyActions ⟨true, none, comboOptsW, none, "", 0⟩
          (optionClickActions
            ⟨"Item 2", 2, false, "cb-option1", 1⟩)))).focusedIndex =
      some ⟨"Item 2", 2, false, "cb-option1", 1⟩ :=
  (claim_C6_selection_closes_and_syncs comboOptsW
    ⟨true, none, comboOptsW, none, "", 0⟩
    ⟨"Item 2", 2, false, "cb-option1", 1⟩ (by decide)).1

end ITwinUI
